import Mathlib

/-!
Verification of the donut-corners corner detector (`donut_corners.py`).

This file gives a shallow embedding, in Lean 4, of the parts of
`DonutCorners` that the specification claims talk about:

* `get_max_idx` (non-max suppression with optional double-end elimination),
* the beam-kernel construction `beam` (prongs, normalization, NaN behaviour),
* the sectional scorer `score_point`,
* the cached score field `get_score` (scalar and inform paths),
* `out_of_bounds` (including numpy broadcast semantics of `shape[:-1]`),
* `search_rays` (probe enumeration, assertion, mode signal),
* the `find_corner` corner-list insertion, and
* the `find_corners` basin loop.

Machine floats are modelled by `ℚ`; numpy NaN (which arises only from 0/0
during prong normalization or from `np.mean` of an empty slice) is modelled
by `Option ℚ` with `none` for NaN.  Python exceptions (`assert`, IndexError)
are modelled with `Except String`.  Nondeterministic collaborators (the
random start-point choice and the external basin-painting maximizer in
`find_corners`, the image contents, the cache state) are parameters of the
embedded functions.
-/

set_option maxRecDepth 4000

attribute [local semireducible] Rat.mul Rat.add Rat.inv Rat.sub

namespace DonutCorners

/-- Integer pixel coordinate `(y, x)`. -/
abbrev Pt := ℤ × ℤ

/-- Rounding of numpy `np.round`: round half to even. -/
def roundHalfEven (q : ℚ) : ℤ :=
  let n := ⌊q + 1 / 2⌋
  if q + 1 / 2 = (n : ℚ) ∧ n % 2 = 1 then n - 1 else n

/-- Index of the first maximal element, as `np.argmax` (0 on the empty list,
where numpy would raise). -/
def np_argmax : List ℚ → ℕ
  | [] => 0
  | x :: xs =>
    let j := np_argmax xs
    if xs ≠ [] ∧ xs.getD j 0 > x then j + 1 else 0

/-- Embedding of `DonutCorners.get_max_idx` (source lines 203–217).
`vals` is mutated in place by the Python code; here the updated array is
returned alongside the `[arg, val]` result.  `ind = arange(arg-w, arg+w+1) % n`
is the cyclic elimination band; with `no_doubles` (and not `gradual`) the
antipodal band `(ind + n//2) % n` is zeroed as well. -/
def get_max_idx (vals : List ℚ) (w : ℕ) (no_doubles : Bool) (gradual : Bool) :
    (ℕ × ℚ) × List ℚ :=
  let n := vals.length
  let arg := np_argmax vals
  let val := vals.getD arg 0
  let ind := (List.range (2 * w + 1)).map fun k =>
    (((arg : ℤ) - (w : ℤ) + (k : ℤ)) % (n : ℤ)).toNat
  let vals1 := ind.foldl (fun v i => v.set i 0) vals
  let vals2 :=
    if gradual then vals1
    else if no_doubles then
      (ind.map fun i => (i + n / 2) % n).foldl (fun v i => v.set i 0) vals1
    else vals1
  ((arg, val), vals2)

/-- The `means` array of claim C1, double-end scenario: length 24, peaks
10 at index 3 and 8 at index 16. -/
def c1valsB : List ℚ := ((List.replicate 24 (0 : ℚ)).set 3 10).set 16 8

/-- The `means` array of claim C1, no-double-end scenario: length 24, peaks
10 at index 3 and 8 at index 15. -/
def c1valsA : List ℚ := ((List.replicate 24 (0 : ℚ)).set 3 10).set 15 8

/-- C1 counterexample: with `elim_double_ends` enabled, elimination width 2
and peaks 10 at index 3 and 8 at index 16 (length 24), the second call to
`get_max_idx` does **not** return `(16, 8)`: the antipodal band
`(1..5 + 12) % 24 = 13..17` zeroed by the first call covers index 16, so the
second call returns `(0, 0)`. -/
theorem c1_counterexample :
    (get_max_idx (get_max_idx c1valsB 2 true false).2 2 true false).1 = (0, (0 : ℚ)) ∧
      (get_max_idx (get_max_idx c1valsB 2 true false).2 2 true false).1 ≠ (16, (8 : ℚ)) := by
  decide

/-- C1 amended: with double-end elimination disabled, two successive calls on
the peaks-(3,10)/(15,8) array return `(3,10)` then `(15,8)`.  With double-end
elimination enabled and the secondary peak at index 16, the first call returns
`(3,10)` and also zeroes the whole antipodal band 13..17 around index 15 —
including index 16 — so the secondary peak is eliminated and the second call
returns `(0,0)` instead of `(16,8)`. -/
theorem c1_amended :
    ((get_max_idx c1valsA 2 false false).1 = (3, (10 : ℚ)) ∧
      (get_max_idx (get_max_idx c1valsA 2 false false).2 2 false false).1 = (15, (8 : ℚ))) ∧
    ((get_max_idx c1valsB 2 true false).1 = (3, (10 : ℚ)) ∧
      ((get_max_idx c1valsB 2 true false).2.getD 13 1 = 0 ∧
        (get_max_idx c1valsB 2 true false).2.getD 14 1 = 0 ∧
        (get_max_idx c1valsB 2 true false).2.getD 15 1 = 0 ∧
        (get_max_idx c1valsB 2 true false).2.getD 16 1 = 0 ∧
        (get_max_idx c1valsB 2 true false).2.getD 17 1 = 0) ∧
      (get_max_idx (get_max_idx c1valsB 2 true false).2 2 true false).1 = (0, (0 : ℚ))) := by
  decide

/-! ## Kernel construction (`DonutCorners.beam`, source lines 117–154)

Each angle of the beam kernel is represented by its unit vector
`uv = (sin θ, cos θ)`; the perpendicular produced by `matmul(uv, rot90)`
with `rot90 = [[0,-1],[1,0]]` is `(cos θ, -sin θ)`.  The window offsets
`delta = ind - r` range over `[-r, r]²` in row-major order. -/

/-- Window offsets `(dy, dx)` of the `beam_diameter × beam_diameter` window,
`delta = ind - beam_length`, in `np.ndindex` row-major order. -/
def cellList (r : ℤ) : List Pt :=
  (List.range (2 * r + 1).toNat).flatMap fun i =>
    (List.range (2 * r + 1).toNat).map fun j => ((i : ℤ) - r, (j : ℤ) - r)

/-- Signed projection of an offset along the beam direction, `delta.dot(uv)`. -/
def len_on_line (uv : ℚ × ℚ) (c : Pt) : ℚ := c.1 * uv.1 + c.2 * uv.2

/-- Signed projection along the perpendicular `(cos θ, -sin θ)`,
`delta.dot(perp)`. -/
def dist_to_line (uv : ℚ × ℚ) (c : Pt) : ℚ := c.1 * uv.2 - c.2 * uv.1

/-- Positive prong weight (source lines 133 and 137): the tent
`max(w/2 - |dist - spr/2|, 0)`, zeroed where
`len < beam_start ∨ len > beam_length ∨ dist ≤ 0`. -/
def prong1 (r ir : ℤ) (w spr : ℚ) (uv : ℚ × ℚ) (c : Pt) : ℚ :=
  if len_on_line uv c < (ir : ℚ) ∨ (r : ℚ) < len_on_line uv c ∨ dist_to_line uv c ≤ 0 then 0
  else max (w / 2 - |dist_to_line uv c - spr / 2|) 0

/-- Negative prong weight (source lines 134 and 138): the tent
`min(-w/2 + |dist + spr/2|, 0)`, zeroed where
`len < beam_start ∨ len > beam_length ∨ dist > 0`. -/
def prong2 (r ir : ℤ) (w spr : ℚ) (uv : ℚ × ℚ) (c : Pt) : ℚ :=
  if len_on_line uv c < (ir : ℚ) ∨ (r : ℚ) < len_on_line uv c ∨ 0 < dist_to_line uv c then 0
  else min (-(w / 2) + |dist_to_line uv c + spr / 2|) 0

/-- Per-angle weight sum of the positive prong, `np.sum(prong1, axis=(1,2))`. -/
def prong1_sum (r ir : ℤ) (w spr : ℚ) (uv : ℚ × ℚ) : ℚ :=
  ((cellList r).map (prong1 r ir w spr uv)).sum

/-- Per-angle weight sum of the negative prong. -/
def prong2_sum (r ir : ℤ) (w spr : ℚ) (uv : ℚ × ℚ) : ℚ :=
  ((cellList r).map (prong2 r ir w spr uv)).sum

/-- Normalized combined kernel value `prong1/sum1 - prong2/sum2` as a
rational, meaningful when both sums are nonzero. -/
def spiralVal (r ir : ℤ) (w spr : ℚ) (uv : ℚ × ℚ) (c : Pt) : ℚ :=
  prong1 r ir w spr uv c / prong1_sum r ir w spr uv -
    prong2 r ir w spr uv c / prong2_sum r ir w spr uv

/-- Stored kernel value with NaN modelling: a prong with zero weight sum has
every weight zero, so its normalization is `0/0 = NaN` at every cell and the
combined `spiral` is NaN at every cell; `none` stands for NaN. -/
def spiral (r ir : ℤ) (w spr : ℚ) (uv : ℚ × ℚ) (c : Pt) : Option ℚ :=
  if prong1_sum r ir w spr uv = 0 ∨ prong2_sum r ir w spr uv = 0 then none
  else some (spiralVal r ir w spr uv c)

/-- Support mask `spiral != 0` (source line 151); numpy `NaN != 0` is true,
so NaN cells belong to the mask. -/
def spiral_mask (r ir : ℤ) (w spr : ℚ) (uv : ℚ × ℚ) (c : Pt) : Bool :=
  match spiral r ir w spr uv c with
  | none => true
  | some v => v ≠ 0

/-- Applies an `Option ℚ`-valued function across cells, propagating NaN
(`none`) exactly as numpy elementwise arithmetic does. -/
def mapNan (f : Pt → Option ℚ) : List Pt → Option (List ℚ)
  | [] => some []
  | c :: cs =>
    match f c, mapNan f cs with
    | some v, some vs => some (v :: vs)
    | _, _ => none

/-- Per-angle response `|np.mean(weights * window)|` over the angle's support
(source line 188); `none` (NaN) when a weight is NaN or the support is empty. -/
def beam_mean (r ir : ℤ) (w spr : ℚ) (uv : ℚ × ℚ) (window : Pt → ℚ) : Option ℚ :=
  let support := (cellList r).filter (fun c => spiral_mask r ir w spr uv c)
  match mapNan (fun c => (spiral r ir w spr uv c).map (fun v => v * window c)) support with
  | none => none
  | some prods =>
      if support.length = 0 then none
      else some |prods.sum / (support.length : ℚ)|

/-- The `means` array of `score_point` (source lines 187–188), one entry per
beam angle. -/
def beam_means (r ir : ℤ) (w spr : ℚ) (uvs : List (ℚ × ℚ)) (window : Pt → ℚ) :
    List (Option ℚ) :=
  uvs.map fun uv => beam_mean r ir w spr uv window

/-- C3 counterexample: the configuration `beam_length = 0`, `beam_start = 0`,
`beam_width = 2`, `fork_spread = 0` gives the angle-0 positive prong zero
support.  Kernel construction does not fail — the source `beam` has no error
path and no `ConfigurationError` exists anywhere in the repository — instead
the zero weight sum makes the normalization `0/0 = NaN`, the NaN kernel value
is stored, and the per-angle scoring mean is NaN for every window. -/
theorem c3_counterexample :
    prong1_sum 0 0 2 0 (0, 1) = 0 ∧
      spiral 0 0 2 0 (0, 1) (0, 0) = none ∧
      beam_means 0 0 2 0 [(0, 1)] (fun _ => 0) = [none] := by
  decide

/-- C3 amended: a prong with zero support is not a construction-time error;
for every configuration in which **either** prong is identically zero, the
degenerate prong's weight sum is `0`, the stored kernel value is NaN
(`none`) at every cell, and the per-angle scoring mean is NaN for every
window — the NaNs silently propagate into scoring. -/
theorem c3_amended (r ir : ℤ) (w spr : ℚ) (uv : ℚ × ℚ)
    (h0 : (∀ c ∈ cellList r, prong1 r ir w spr uv c = 0) ∨
      (∀ c ∈ cellList r, prong2 r ir w spr uv c = 0)) :
    (prong1_sum r ir w spr uv = 0 ∨ prong2_sum r ir w spr uv = 0) ∧
      (∀ c, spiral r ir w spr uv c = none) ∧
      (∀ window : Pt → ℚ, beam_mean r ir w spr uv window = none) := by
  have hsum : prong1_sum r ir w spr uv = 0 ∨ prong2_sum r ir w spr uv = 0 := by
    rcases h0 with h0 | h0
    · left
      apply List.sum_eq_zero
      intro x hx
      rcases List.mem_map.mp hx with ⟨c, hc, rfl⟩
      exact h0 c hc
    · right
      apply List.sum_eq_zero
      intro x hx
      rcases List.mem_map.mp hx with ⟨c, hc, rfl⟩
      exact h0 c hc
  have hspir : ∀ c, spiral r ir w spr uv c = none := by
    intro c
    unfold spiral
    exact if_pos hsum
  refine ⟨hsum, hspir, ?_⟩
  intro window
  have hmask : ∀ c, spiral_mask r ir w spr uv c = true := by
    intro c
    simp [spiral_mask, hspir c]
  unfold beam_mean
  have hfilter : (cellList r).filter (fun c => spiral_mask r ir w spr uv c) = cellList r :=
    List.filter_eq_self.mpr fun a _ => hmask a
  rw [hfilter]
  cases hcl : cellList r with
  | nil => simp [mapNan]
  | cons c cs => simp [mapNan, hspir c]

/-- C3 amended witness, exercising both branches: with `beam_length = 0`,
`beam_width = 2` the configuration `fork_spread = 0` has an empty positive
prong, and the configuration `fork_spread = 2` has an empty negative prong
(its only cell has tent value `min(-1 + |0 + 1|, 0) = 0`). -/
theorem c3_amended_witness :
    ((prong1_sum 0 0 2 0 (0, 1) = 0 ∨ prong2_sum 0 0 2 0 (0, 1) = 0) ∧
      (∀ c, spiral 0 0 2 0 (0, 1) c = none) ∧
      (∀ window : Pt → ℚ, beam_mean 0 0 2 0 (0, 1) window = none)) ∧
    ((prong1_sum 0 0 2 2 (0, 1) = 0 ∨ prong2_sum 0 0 2 2 (0, 1) = 0) ∧
      (∀ c, spiral 0 0 2 2 (0, 1) c = none) ∧
      (∀ window : Pt → ℚ, beam_mean 0 0 2 2 (0, 1) window = none)) :=
  ⟨c3_amended 0 0 2 0 (0, 1) (Or.inl (by decide)),
    c3_amended 0 0 2 2 (0, 1) (Or.inr (by decide))⟩

/-! ## Claim C7: prong normalization -/

/-- Sum of the positive weights of the combined normalized kernel of one
angle (the positive-prong part of `spiral`). -/
def spiral_pos_sum (r ir : ℤ) (w spr : ℚ) (uv : ℚ × ℚ) : ℚ :=
  (((cellList r).filter fun c => decide (0 < spiralVal r ir w spr uv c)).map
    (spiralVal r ir w spr uv)).sum

/-- Sum of the negative weights of the combined normalized kernel of one
angle (the negative-prong part of `spiral`). -/
def spiral_neg_sum (r ir : ℤ) (w spr : ℚ) (uv : ℚ × ℚ) : ℚ :=
  (((cellList r).filter fun c => decide (spiralVal r ir w spr uv c < 0)).map
    (spiralVal r ir w spr uv)).sum

theorem list_sum_pos_of_nonneg (l : List ℚ) (h0 : ∀ x ∈ l, 0 ≤ x)
    (hx : ∃ x ∈ l, x ≠ 0) : 0 < l.sum := by
  induction l with
  | nil => rcases hx with ⟨x, hx, _⟩; cases hx
  | cons a t ih =>
    rcases hx with ⟨x, hx, hxne⟩
    rcases List.mem_cons.mp hx with rfl | hxt
    · have ha : 0 < x := lt_of_le_of_ne (h0 x (List.mem_cons_self _ _)) (Ne.symm hxne)
      have ht : 0 ≤ t.sum := List.sum_nonneg fun y hy => h0 y (List.mem_cons_of_mem _ hy)
      simpa [List.sum_cons] using add_pos_of_pos_of_nonneg ha ht
    · have ht : 0 < t.sum :=
        ih (fun y hy => h0 y (List.mem_cons_of_mem _ hy)) ⟨x, hxt, hxne⟩
      have ha : 0 ≤ a := h0 a (List.mem_cons_self _ _)
      simpa [List.sum_cons] using add_pos_of_nonneg_of_pos ha ht

theorem list_sum_div (l : List Pt) (f : Pt → ℚ) (d : ℚ) :
    (l.map fun x => f x / d).sum = (l.map f).sum / d := by
  induction l with
  | nil => simp
  | cons a t ih => simp [List.sum_cons, ih, add_div]

theorem list_sum_neg (l : List Pt) (f : Pt → ℚ) :
    (l.map fun x => -f x).sum = -(l.map f).sum := by
  induction l with
  | nil => simp
  | cons a t ih =>
    simp only [List.map_cons, List.sum_cons, ih]
    ring

theorem list_sum_filter_of_zero (l : List Pt) (q : Pt → Bool) (f : Pt → ℚ)
    (h : ∀ x ∈ l, q x = false → f x = 0) :
    ((l.filter q).map f).sum = (l.map f).sum := by
  induction l with
  | nil => simp
  | cons a t ih =>
    have ht := ih fun x hx => h x (List.mem_cons_of_mem _ hx)
    cases hq : q a with
    | true => simp [List.filter_cons, hq, List.sum_cons, ht]
    | false => simp [List.filter_cons, hq, List.sum_cons, ht, h a (List.mem_cons_self _ _) hq]

theorem prong1_nonneg (r ir : ℤ) (w spr : ℚ) (uv : ℚ × ℚ) (c : Pt) :
    0 ≤ prong1 r ir w spr uv c := by
  unfold prong1; split
  · exact le_refl 0
  · exact le_max_right _ _

theorem prong2_nonpos (r ir : ℤ) (w spr : ℚ) (uv : ℚ × ℚ) (c : Pt) :
    prong2 r ir w spr uv c ≤ 0 := by
  unfold prong2; split
  · exact le_refl 0
  · exact min_le_right _ _

theorem prong2_eq_zero_of_prong1 (r ir : ℤ) (w spr : ℚ) (uv : ℚ × ℚ) (c : Pt)
    (h : prong1 r ir w spr uv c ≠ 0) : prong2 r ir w spr uv c = 0 := by
  by_cases hc : len_on_line uv c < (ir : ℚ) ∨ (r : ℚ) < len_on_line uv c ∨
      dist_to_line uv c ≤ 0
  · exact absurd (by simp [prong1, hc]) h
  · push_neg at hc
    exact if_pos (Or.inr (Or.inr hc.2.2))

theorem prong1_eq_zero_of_prong2 (r ir : ℤ) (w spr : ℚ) (uv : ℚ × ℚ) (c : Pt)
    (h : prong2 r ir w spr uv c ≠ 0) : prong1 r ir w spr uv c = 0 := by
  by_cases hc : len_on_line uv c < (ir : ℚ) ∨ (r : ℚ) < len_on_line uv c ∨
      0 < dist_to_line uv c
  · exact absurd (by simp [prong2, hc]) h
  · push_neg at hc
    exact if_pos (Or.inr (Or.inr hc.2.2))

/-- C7: for every beam angle (given by its unit vector) and every
configuration in which both prongs have nonzero support, the sum of the
positive weights of the normalized kernel is `1`, the sum of its negative
weights is `-1`, and hence the former equals the negation of the latter. -/
theorem c7_prong_normalization (r ir : ℤ) (w spr : ℚ) (uv : ℚ × ℚ)
    (h1 : ∃ c ∈ cellList r, prong1 r ir w spr uv c ≠ 0)
    (h2 : ∃ c ∈ cellList r, prong2 r ir w spr uv c ≠ 0) :
    spiral_pos_sum r ir w spr uv = 1 ∧ spiral_neg_sum r ir w spr uv = -1 ∧
      spiral_pos_sum r ir w spr uv = -(spiral_neg_sum r ir w spr uv) := by
  have hs1 : 0 < prong1_sum r ir w spr uv := by
    apply list_sum_pos_of_nonneg
    · intro x hx
      rcases List.mem_map.mp hx with ⟨c, _, rfl⟩
      exact prong1_nonneg r ir w spr uv c
    · rcases h1 with ⟨c, hc, hne⟩
      exact ⟨prong1 r ir w spr uv c, List.mem_map_of_mem _ hc, hne⟩
  have hs2 : prong2_sum r ir w spr uv < 0 := by
    have : 0 < ((cellList r).map fun c => -prong2 r ir w spr uv c).sum := by
      apply list_sum_pos_of_nonneg
      · intro x hx
        rcases List.mem_map.mp hx with ⟨c, _, rfl⟩
        simpa using prong2_nonpos r ir w spr uv c
      · rcases h2 with ⟨c, hc, hne⟩
        exact ⟨-prong2 r ir w spr uv c, List.mem_map_of_mem _ hc, by simpa using hne⟩
    have hneg := list_sum_neg (cellList r) (prong2 r ir w spr uv)
    rw [hneg] at this
    have hdef : prong2_sum r ir w spr uv =
        ((cellList r).map (prong2 r ir w spr uv)).sum := rfl
    linarith [this, hdef.ge, hdef.le]
  have hdifvpos : ∀ c, prong1 r ir w spr uv c ≠ 0 →
      spiralVal r ir w spr uv c = prong1 r ir w spr uv c / prong1_sum r ir w spr uv := by
    intro c hc
    simp [spiralVal, prong2_eq_zero_of_prong1 r ir w spr uv c hc]
  have hdifvneg : ∀ c, prong1 r ir w spr uv c = 0 →
      spiralVal r ir w spr uv c = -(prong2 r ir w spr uv c / prong2_sum r ir w spr uv) := by
    intro c hc
    simp [spiralVal, hc]
  have hq1 : ∀ c, (0 < spiralVal r ir w spr uv c ↔ prong1 r ir w spr uv c ≠ 0) := by
    intro c
    constructor
    · intro h
      by_contra hc
      rw [hdifvneg c hc] at h
      have : 0 ≤ prong2 r ir w spr uv c / prong2_sum r ir w spr uv :=
        div_nonneg_of_nonpos (prong2_nonpos r ir w spr uv c) (le_of_lt hs2)
      linarith
    · intro hc
      rw [hdifvpos c hc]
      exact div_pos (lt_of_le_of_ne (prong1_nonneg r ir w spr uv c) (Ne.symm hc)) hs1
  have hq2 : ∀ c, (spiralVal r ir w spr uv c < 0 ↔ prong2 r ir w spr uv c ≠ 0) := by
    intro c
    constructor
    · intro h
      by_contra hc
      by_cases hp1 : prong1 r ir w spr uv c = 0
      · rw [hdifvneg c hp1, hc] at h
        simp at h
      · rw [hdifvpos c hp1] at h
        have : 0 ≤ prong1 r ir w spr uv c / prong1_sum r ir w spr uv :=
          div_nonneg (prong1_nonneg r ir w spr uv c) (le_of_lt hs1)
        linarith
    · intro hc
      rw [hdifvneg c (prong1_eq_zero_of_prong2 r ir w spr uv c hc)]
      have : 0 < prong2 r ir w spr uv c / prong2_sum r ir w spr uv :=
        div_pos_of_neg_of_neg (lt_of_le_of_ne (prong2_nonpos r ir w spr uv c) hc) hs2
      linarith
  have hpos : spiral_pos_sum r ir w spr uv = 1 := by
    unfold spiral_pos_sum
    rw [List.filter_congr (fun c _ => decide_eq_decide.mpr (hq1 c))]
    rw [List.map_congr_left (fun c hc =>
      hdifvpos c (of_decide_eq_true (List.mem_filter.mp hc).2))]
    rw [list_sum_filter_of_zero _ _ _ ?side]
    case side =>
      intro c _ hq
      have : prong1 r ir w spr uv c = 0 := by
        by_contra hne
        simp [hne] at hq
      simp [this]
    rw [list_sum_div]
    exact div_self (ne_of_gt hs1)
  have hneg : spiral_neg_sum r ir w spr uv = -1 := by
    unfold spiral_neg_sum
    rw [List.filter_congr (fun c _ => decide_eq_decide.mpr (hq2 c))]
    rw [List.map_congr_left (fun c hc =>
      hdifvneg c (prong1_eq_zero_of_prong2 r ir w spr uv c
        (of_decide_eq_true (List.mem_filter.mp hc).2)))]
    rw [list_sum_filter_of_zero _ _
        (fun c => -(prong2 r ir w spr uv c / prong2_sum r ir w spr uv)) ?side2]
    case side2 =>
      intro c _ hq
      have : prong2 r ir w spr uv c = 0 := by
        by_contra hne
        simp [hne] at hq
      simp [this]
    rw [list_sum_neg, list_sum_div]
    have hdef2 : ((cellList r).map (prong2 r ir w spr uv)).sum = prong2_sum r ir w spr uv := rfl
    rw [hdef2, div_self (ne_of_lt hs2)]
  exact ⟨hpos, hneg, by rw [hpos, hneg]; norm_num⟩

/-- C7 witness: the configuration `beam_length = 2`, `beam_start = 0`,
`beam_width = 2`, `fork_spread = 2` at angle 0 has nonempty support on both
prongs, and its kernel weight sums are `1` and `-1`. -/
theorem c7_prong_normalization_witness :
    spiral_pos_sum 2 0 2 2 (0, 1) = 1 ∧ spiral_neg_sum 2 0 2 2 (0, 1) = -1 ∧
      spiral_pos_sum 2 0 2 2 (0, 1) = -(spiral_neg_sum 2 0 2 2 (0, 1)) :=
  c7_prong_normalization 2 0 2 2 (0, 1)
    ⟨(1, 0), by decide, by decide⟩ ⟨(-1, 0), by decide, by decide⟩

/-! ## Claim C2: `out_of_bounds` (source lines 280–281)

`out_of_bounds` evaluates `not np.all((point >= 0) & (point < self.src.shape[:-1]))`.
For a 3-channel color image `src.shape[:-1]` is `(h, w)` and the comparison is
elementwise; for a 2-D grayscale image it is the single-element tuple `(h,)`,
which numpy broadcasts against both coordinates of `point`. -/

/-- numpy `np.all(point >= 0)`. -/
def np_nonneg (point : List ℤ) : Bool :=
  point.all fun x => decide (0 ≤ x)

/-- numpy `np.all(point < bound)` with broadcast semantics: a length-1 bound
is broadcast against every coordinate, otherwise the comparison is
elementwise. -/
def np_lt_shape (point : List ℤ) (bound : List ℤ) : Bool :=
  match bound with
  | [b] => point.all fun x => decide (x < b)
  | _ => (point.zip bound).all fun p => decide (p.1 < p.2)

/-- Embedding of `DonutCorners.out_of_bounds`: `shape` is the full
`self.src.shape`; the code compares against `shape[:-1]`. -/
def out_of_bounds (point : List ℤ) (shape : List ℤ) : Bool :=
  !(np_nonneg point && np_lt_shape point shape.dropLast)

/-- C2 code bug: for a 2-D grayscale image of shape `(6, 4)` the point
`(0, 5)` — whose column 5 is outside `[0, 4)` — is **not** flagged out of
bounds, because `shape[:-1] = (6,)` broadcasts the height bound over both
coordinates; `get_score` therefore does not return the 0 sentinel there
(it goes on to index `scored_partial` out of range).  For a 3-channel image
of the same height and width, shape `(6, 4, 3)`, the same point is correctly
flagged out of bounds. -/
theorem c2_grayscale_bounds_bug :
    out_of_bounds [0, 5] [6, 4] = false ∧ out_of_bounds [0, 5] [6, 4, 3] = true := by
  decide

/-! ## Claim C4: corner-list insertion in `find_corner` (source lines 254–258) -/

/-- A corner record `np.array([-result.y, x, y])`: strength then position. -/
abbrev Corner := ℚ × ℤ × ℤ

/-- Embedding of the insertion step of `DonutCorners.find_corner`: the
candidate is appended unless `np.any([np.all(res == c) for c in corners])`,
i.e. unless some existing entry matches in *all three* components. -/
def find_corner_insert (corners : List Corner) (res : Corner) : List Corner :=
  if corners.any fun c => decide (c = res) then corners else corners ++ [res]

/-- C4 counterexample: a maximizer result `(4, (2,3))` whose position `(2,3)`
exactly matches the already-appended corner `(5, (2,3))` but whose value
differs is **inserted**, producing a list in which position `(2,3)` appears
twice. -/
theorem c4_counterexample :
    find_corner_insert [(5, 2, 3)] (4, 2, 3) = [(5, 2, 3), (4, 2, 3)] ∧
      ((find_corner_insert [(5, 2, 3)] (4, 2, 3)).countP
        fun c => decide (c.2 = ((2 : ℤ), (3 : ℤ)))) = 2 := by
  decide

/-- C4 amended: the insertion check compares the whole `(value, position)`
triple, so what is preserved is that no *triple* appears twice: inserting any
result into a duplicate-free corner list leaves it duplicate-free. -/
theorem c4_no_duplicate_triples (corners : List Corner) (res : Corner)
    (h : corners.Nodup) : (find_corner_insert corners res).Nodup := by
  unfold find_corner_insert
  by_cases hmem : corners.any fun c => decide (c = res)
  · simpa [hmem] using h
  · have hres : res ∉ corners := by
      intro hin
      exact hmem (List.any_eq_true.mpr ⟨res, hin, by simp⟩)
    simp [hmem, List.nodup_append, h, List.disjoint_singleton, hres]

/-- C4 amended witness: inserting an exact duplicate of the only entry keeps
the singleton list duplicate-free (the duplicate is rejected). -/
theorem c4_no_duplicate_triples_witness :
    (find_corner_insert [(5, 2, 3)] (5, 2, 3)).Nodup :=
  c4_no_duplicate_triples [(5, 2, 3)] (5, 2, 3) (by decide)

/-! ## Claim C10: sectional `score_point` (source lines 183–200)

Sectional scoring extracts `max_n` peaks from the per-beam `means` array
(length `beam_count`) and looks their indices up in `baked_angles`
(length `angle_count`). -/

/-- Collapses a list of possibly-NaN values, propagating NaN as numpy
fancy operations do. -/
def seqNan : List (Option ℚ) → Option (List ℚ)
  | [] => some []
  | x :: xs =>
    match x, seqNan xs with
    | some v, some vs => some (v :: vs)
    | _, _ => none

/-- The `max_n` successive `get_max_idx` extractions of `score_point`
(source lines 193–194), threading the in-place zeroing of `means`. -/
def iterate_max (w : ℕ) (nd : Bool) : ℕ → List ℚ → List (ℕ × ℚ) × List ℚ
  | 0, vals => ([], vals)
  | n + 1, vals =>
    let r := get_max_idx vals w nd false
    let rest := iterate_max w nd n r.2
    (r.1 :: rest.1, rest.2)

/-- numpy fancy indexing `baked_angles[beam_ids]`: `none` models the
IndexError raised when any id is out of range. -/
def lookup_angles (baked : List ℚ) : List ℕ → Option (List ℚ)
  | [] => some []
  | i :: is =>
    match baked[i]?, lookup_angles baked is with
    | some a, some rest => some (a :: rest)
    | _, _ => none

/-- Sectional part of `score_point` (source lines 193–200): extract `max_n`
peaks, look up their angles, and return
`(mean strengths, angles, strengths, ids)`; `none` models the IndexError of
the angle lookup. -/
def score_point_sectional (means : List ℚ) (elim_w : ℕ) (elim_doubles : Bool)
    (max_n : ℕ) (baked : List ℚ) : Option (ℚ × List ℚ × List ℚ × List ℕ) :=
  let maxs := (iterate_max elim_w elim_doubles max_n means).1
  let beam_ids := maxs.map Prod.fst
  let beam_strengths := maxs.map Prod.snd
  match lookup_angles baked beam_ids with
  | none => none
  | some angles =>
      some (beam_strengths.sum / (beam_strengths.length : ℚ), angles, beam_strengths, beam_ids)

/-- The `beam_diameter × beam_diameter` region of the padded image around
`point` (source lines 184–185), re-indexed by window offsets:
`region[i, j] = bw[point + (i, j)]` and offset `c = (i - r, j - r)`. -/
def window_of (bw : Pt → ℚ) (point : Pt) (r : ℤ) : Pt → ℚ :=
  fun c => bw (point.1 + c.1 + r, point.2 + c.2 + r)

/-- Embedding of `DonutCorners.score_point`.  The amorphous branch returns
the scalar mean with empty detail lists (the Python code returns a 1-tuple
there); the sectional branch may fail with the angle-lookup IndexError, and
NaN means are reported as a distinct error. -/
def score_point (r ir : ℤ) (w spr : ℚ) (uvs : List (ℚ × ℚ)) (bw : Pt → ℚ) (point : Pt)
    (sectional : Bool) (elim_w : ℕ) (elim_doubles : Bool) (max_n : ℕ) (baked : List ℚ) :
    Except String (ℚ × List ℚ × List ℚ × List ℕ) :=
  match seqNan (beam_means r ir w spr uvs (window_of bw point r)) with
  | none => .error "nan means"
  | some means =>
      if sectional = false then .ok (means.sum / (means.length : ℚ), [], [], [])
      else
        match score_point_sectional means elim_w elim_doubles max_n baked with
        | none => .error "IndexError"
        | some res => .ok res

theorem foldl_set_length (idxs : List ℕ) (l : List ℚ) :
    (idxs.foldl (fun v i => v.set i 0) l).length = l.length := by
  induction idxs generalizing l with
  | nil => rfl
  | cons i is ih => simp [List.foldl_cons, ih]

theorem get_max_idx_length (vals : List ℚ) (w : ℕ) (nd g : Bool) :
    (get_max_idx vals w nd g).2.length = vals.length := by
  unfold get_max_idx
  dsimp only
  split
  · exact foldl_set_length _ _
  · split
    · rw [foldl_set_length, foldl_set_length]
    · exact foldl_set_length _ _

theorem np_argmax_lt (l : List ℚ) (h : l ≠ []) : np_argmax l < l.length := by
  induction l with
  | nil => exact absurd rfl h
  | cons x xs ih =>
    simp only [np_argmax]
    split
    · next hc => exact Nat.succ_lt_succ (ih hc.1)
    · simp

theorem replicate_getD (m i : ℕ) : (List.replicate m (0 : ℚ)).getD i 0 = 0 := by
  induction m generalizing i with
  | zero => rfl
  | succ m ih =>
    cases i with
    | zero => rfl
    | succ i =>
      rw [List.replicate_succ, List.getD_cons_succ]
      exact ih i

theorem np_argmax_replicate_zero (m : ℕ) :
    np_argmax (List.replicate m (0 : ℚ)) = 0 := by
  cases m with
  | zero => rfl
  | succ m => simp [List.replicate_succ, np_argmax, replicate_getD]

theorem getD_peak (k : ℕ) (t : List ℚ) :
    (List.replicate k (0 : ℚ) ++ 1 :: t).getD k 0 = 1 := by
  induction k with
  | zero => rfl
  | succ k ih => simpa [List.replicate_succ] using ih

theorem np_argmax_peak (k m : ℕ) :
    np_argmax (List.replicate k (0 : ℚ) ++ 1 :: List.replicate m 0) = k := by
  induction k with
  | zero =>
    simp only [List.replicate, List.nil_append, np_argmax]
    rw [np_argmax_replicate_zero, replicate_getD]
    norm_num
  | succ k ih =>
    rw [List.replicate_succ, List.cons_append, np_argmax]
    simp only [ih, getD_peak]
    rw [if_pos]
    constructor
    · simp
    · norm_num

theorem iterate_max_ids_lt (w : ℕ) (nd : Bool) (n : ℕ) (vals : List ℚ)
    (h : 0 < vals.length) :
    ∀ i ∈ (iterate_max w nd n vals).1.map Prod.fst, i < vals.length := by
  induction n generalizing vals with
  | zero => simp [iterate_max]
  | succ n ih =>
    intro i hi
    simp only [iterate_max, List.map_cons, List.mem_cons] at hi
    rcases hi with rfl | hi
    · exact np_argmax_lt vals (List.ne_nil_of_length_pos h)
    · have hlen := get_max_idx_length vals w nd false
      have := ih (get_max_idx vals w nd false).2 (by rw [hlen]; exact h) i hi
      rwa [hlen] at this

theorem lookup_angles_isSome (baked : List ℚ) (ids : List ℕ)
    (h : ∀ i ∈ ids, i < baked.length) : (lookup_angles baked ids).isSome = true := by
  induction ids with
  | nil => rfl
  | cons i is ih =>
    cases hget : baked[i]? with
    | none =>
      have := List.getElem?_eq_none_iff.mp hget
      have hi := h i (List.mem_cons_self _ _)
      omega
    | some a =>
      have hrest := ih fun j hj => h j (List.mem_cons_of_mem _ hj)
      cases hrest' : lookup_angles baked is with
      | none => rw [hrest'] at hrest; simp at hrest
      | some rest => simp [lookup_angles, hget, hrest']

theorem c10aux_total (means baked : List ℚ) (elim_w : ℕ) (nd : Bool) (max_n : ℕ)
    (h0 : 0 < means.length) (hle : means.length ≤ baked.length) :
    (score_point_sectional means elim_w nd max_n baked).isSome = true := by
  have hids := iterate_max_ids_lt elim_w nd max_n means h0
  have hsome := lookup_angles_isSome baked
    ((iterate_max elim_w nd max_n means).1.map Prod.fst)
    (fun i hi => lt_of_lt_of_le (hids i hi) hle)
  unfold score_point_sectional
  dsimp only
  cases hl : lookup_angles baked ((iterate_max elim_w nd max_n means).1.map Prod.fst) with
  | none => rw [hl] at hsome; simp at hsome
  | some angles => simp [hl]

theorem c10aux_fail (ac bc elim_w : ℕ) (nd : Bool) (m : ℕ) (baked : List ℚ)
    (hb : baked.length = ac) (hlt : ac < bc) :
    (List.replicate ac (0 : ℚ) ++ 1 :: List.replicate (bc - ac - 1) 0).length = bc ∧
      score_point_sectional (List.replicate ac (0 : ℚ) ++ 1 :: List.replicate (bc - ac - 1) 0)
        elim_w nd (m + 1) baked = none := by
  constructor
  · simp only [List.length_append, List.length_replicate, List.length_cons]
    omega
  · unfold score_point_sectional
    dsimp only
    have h1 : (iterate_max elim_w nd (m + 1)
        (List.replicate ac (0 : ℚ) ++ 1 :: List.replicate (bc - ac - 1) 0)).1.map Prod.fst
        = np_argmax (List.replicate ac (0 : ℚ) ++ 1 :: List.replicate (bc - ac - 1) 0) ::
          ((iterate_max elim_w nd m
            (get_max_idx (List.replicate ac (0 : ℚ) ++ 1 :: List.replicate (bc - ac - 1) 0)
              elim_w nd false).2).1.map Prod.fst) := rfl
    rw [h1, np_argmax_peak]
    have hget : baked[ac]? = none := List.getElem?_eq_none (by omega)
    simp [lookup_angles, hget]

/-- Beam unit vectors for `beam_count = 4`: angles `0, π/2, π, 3π/2` have
exact rational `(sin, cos)` pairs. -/
def c10uvs : List (ℚ × ℚ) := [(0, 1), (1, 0), (0, -1), (-1, 0)]

/-- A concrete padded image: bright values 100 at `(0,0)` and `(0,1)`,
black elsewhere. -/
def c10bw : Pt → ℚ := fun p => if p = ((0 : ℤ), (0 : ℤ)) ∨ p = ((0 : ℤ), (1 : ℤ)) then 100 else 0

theorem c10aux_pipeline (baked : List ℚ) (hb : baked.length = 2) :
    score_point 1 0 2 2 c10uvs c10bw (0, 0) true 0 false 3 baked = .error "IndexError" := by
  unfold score_point
  have h1 : seqNan (beam_means 1 0 2 2 c10uvs (window_of c10bw (0, 0) 1))
      = some [25 / 2, 0, 25, 25 / 2] := by decide
  rw [h1]
  have h2 : (iterate_max 0 false 3 [25 / 2, 0, 25, 25 / 2]).1.map Prod.fst = [2, 0, 3] := by
    decide
  dsimp only
  unfold score_point_sectional
  dsimp only
  rw [h2]
  have hget : baked[2]? = none := List.getElem?_eq_none (by omega)
  simp [lookup_angles, hget]

/-- C10: (a) whenever the `means` array is nonempty and no longer than
`baked_angles` — in particular whenever `beam_count ≤ angle_count` — the
sectional scorer always produces a result; (b) whenever
`angle_count < beam_count`, the `means` array that peaks at index
`angle_count` makes the angle lookup fail (IndexError), for every
elimination width, double-end flag and positive `max_n`; (c) concretely, the
full scoring pipeline with `beam_count = 4 > 2 = angle_count`
(`beam_length = 1`, `beam_start = 0`, `beam_width = 2`, `fork_spread = 2`)
fails with IndexError on the image `c10bw` at point `(0,0)`. -/
theorem c10_sectional_totality :
    (∀ (means baked : List ℚ) (elim_w : ℕ) (nd : Bool) (max_n : ℕ),
        0 < means.length → means.length ≤ baked.length →
        (score_point_sectional means elim_w nd max_n baked).isSome = true) ∧
    (∀ (ac bc elim_w : ℕ) (nd : Bool) (m : ℕ) (baked : List ℚ),
        baked.length = ac → ac < bc →
        (List.replicate ac (0 : ℚ) ++ 1 :: List.replicate (bc - ac - 1) 0).length = bc ∧
          score_point_sectional
            (List.replicate ac (0 : ℚ) ++ 1 :: List.replicate (bc - ac - 1) 0)
            elim_w nd (m + 1) baked = none) ∧
    (∀ baked : List ℚ, baked.length = 2 →
        score_point 1 0 2 2 c10uvs c10bw (0, 0) true 0 false 3 baked = .error "IndexError") :=
  ⟨c10aux_total, c10aux_fail, c10aux_pipeline⟩

/-- C10 witness: part (a) at `means = [5,7]`, `baked = [0,1]`; part (b) at
`angle_count = 1 < 2 = beam_count`; part (c) at `baked = [0, 0]`. -/
theorem c10_sectional_totality_witness :
    (score_point_sectional [5, 7] 1 true 2 [0, 1]).isSome = true ∧
      ((List.replicate 1 (0 : ℚ) ++ 1 :: List.replicate 0 0).length = 2 ∧
        score_point_sectional (List.replicate 1 (0 : ℚ) ++ 1 :: List.replicate 0 0)
          0 false 1 [0] = none) ∧
      score_point 1 0 2 2 c10uvs c10bw (0, 0) true 0 false 3 [0, 0] = .error "IndexError" :=
  ⟨c10_sectional_totality.1 [5, 7] [0, 1] 1 true 2 (by decide) (by decide),
    c10_sectional_totality.2.1 1 2 0 false 0 [0] (by decide) (by decide),
    c10_sectional_totality.2.2 [0, 0] (by decide)⟩

/-! ## Claim C8: the cached score field `get_score` (source lines 158–180)

The cache state of a `DonutCorners` instance: the optional dense `scored`
array, the partial per-pixel cache `scored_partial` (NaN = absent, so an
entry is `Option ℚ`), and the `point_info` dict.  The deterministic
underlying scorer `score_point` is a parameter `sp`; its result is a tuple
whose first component is the scalar score, the rest (type `A`) carries the
sectional detail.  `get_score` returns, besides its Python return value, the
updated state and an instrumentation flag telling whether `sp` was invoked. -/

structure ScoreState (A : Type) where
  scored : Option (Pt → ℚ)
  scoredPart : Pt → Option ℚ
  point_info : Pt → Option (ℚ × A)

/-- Dynamic return value of `get_score`: a bare scalar (out-of-bounds
sentinel and scalar path) or the inform-path triple
`(score, info, cache_hit)`. -/
inductive GSRes (A : Type) where
  | scalar (v : ℚ)
  | informed (v : ℚ) (info : ℚ × A) (exist : Bool)
deriving DecidableEq

/-- Embedding of `DonutCorners.get_score`.  Out of bounds returns the bare
scalar `0` whatever `inform` is; the inform path consults and fills
`point_info` (also writing `scored_partial`); the scalar path consults
`scored`, then `scored_partial`, computing and storing on a miss. -/
def get_score {A : Type} (oob : Pt → Bool) (sp : Pt → ℚ × A) (st : ScoreState A)
    (point : Pt) (inform : Bool) : GSRes A × ScoreState A × Bool :=
  if oob point then (.scalar 0, st, false)
  else if inform then
    match st.point_info point with
    | some info => (.informed info.1 info true, st, false)
    | none =>
        let info := sp point
        let st' : ScoreState A :=
          { st with
            point_info := fun q => if q = point then some info else st.point_info q,
            scoredPart := fun q => if q = point then some info.1 else st.scoredPart q }
        (.informed info.1 info false, st', true)
  else
    match st.scored with
    | some s => (.scalar (s point), st, false)
    | none =>
        match st.scoredPart point with
        | some v => (.scalar v, st, false)
        | none =>
            let v := (sp point).1
            let st' : ScoreState A :=
              { st with scoredPart := fun q => if q = point then some v else st.scoredPart q }
            (.scalar v, st', true)

/-- Replaces the cache-hit flag of an inform-path result by `true`; the
identity on scalar results. -/
def GSRes.hitTrue {A : Type} : GSRes A → GSRes A
  | .informed v i _ => .informed v i true
  | r => r

/-- C8: for every in-bounds point, every cache state and every deterministic
underlying scorer, a second `get_score` call with the same `inform` flag
returns the same payload (with the cache-hit flag now `true` on the inform
path), does not invoke the underlying scorer, and leaves the cache state
unchanged. -/
theorem c8_second_call_cached {A : Type} (oob : Pt → Bool) (sp : Pt → ℚ × A)
    (st : ScoreState A) (point : Pt) (inform : Bool) (h : oob point = false) :
    (get_score oob sp (get_score oob sp st point inform).2.1 point inform).1
        = (get_score oob sp st point inform).1.hitTrue ∧
      (get_score oob sp (get_score oob sp st point inform).2.1 point inform).2.2 = false ∧
      (get_score oob sp (get_score oob sp st point inform).2.1 point inform).2.1
        = (get_score oob sp st point inform).2.1 := by
  cases inform with
  | true =>
    cases hi : st.point_info point with
    | some info => simp [get_score, h, hi, GSRes.hitTrue]
    | none => simp [get_score, h, hi, GSRes.hitTrue]
  | false =>
    cases hs : st.scored with
    | some s => simp [get_score, h, hs, GSRes.hitTrue]
    | none =>
      cases hp : st.scoredPart point with
      | some v => simp [get_score, h, hs, hp, GSRes.hitTrue]
      | none => simp [get_score, h, hs, hp, GSRes.hitTrue]

/-- C8 witness: a concrete in-bounds inform-path call on an empty cache. -/
theorem c8_second_call_cached_witness :
    (get_score (fun _ => false) (fun _ => ((1 : ℚ), ()))
        (get_score (fun _ => false) (fun _ => ((1 : ℚ), ()))
          ⟨none, fun _ => none, fun _ => none⟩ (0, 0) true).2.1 (0, 0) true).1
        = (get_score (fun _ => false) (fun _ => ((1 : ℚ), ()))
            ⟨none, fun _ => none, fun _ => none⟩ (0, 0) true).1.hitTrue ∧
      (get_score (fun _ => false) (fun _ => ((1 : ℚ), ()))
        (get_score (fun _ => false) (fun _ => ((1 : ℚ), ()))
          ⟨none, fun _ => none, fun _ => none⟩ (0, 0) true).2.1 (0, 0) true).2.2 = false ∧
      (get_score (fun _ => false) (fun _ => ((1 : ℚ), ()))
        (get_score (fun _ => false) (fun _ => ((1 : ℚ), ()))
          ⟨none, fun _ => none, fun _ => none⟩ (0, 0) true).2.1 (0, 0) true).2.1
        = (get_score (fun _ => false) (fun _ => ((1 : ℚ), ()))
            ⟨none, fun _ => none, fun _ => none⟩ (0, 0) true).2.1 :=
  c8_second_call_cached (fun _ => false) (fun _ => ((1 : ℚ), ()))
    ⟨none, fun _ => none, fun _ => none⟩ (0, 0) true rfl

/-! ## Claims C5 and C6: `search_rays` (source lines 284–305)

Angles are passed as `(sin θ, cos θ)` pairs; a probe offset is
`np.round(dist * (sin θ, cos θ))`.  The Python loop keeps
`best_v, best_p, best_i, best_info`, where `best_i` is the **distance**
index from `enumerate(dists)` (initially `-1`), and finally classifies:
`mode = -1` if `best_i == -1`, `0` if `best_i == 0 or best_i == len(angles) - 1`,
else `1`. -/

/-- Loop state of `search_rays`: best value, point, distance index, info
and the threaded cache state. -/
structure SRAcc (A : Type) where
  best_v : ℚ
  best_p : Pt
  best_i : ℤ
  best_info : ℚ × A
  st : ScoreState A

/-- Integer probe point `point + np.round(dist * (sin θ, cos θ))`. -/
def probe_point (point : Pt) (uv : ℚ × ℚ) (dist : ℚ) : Pt :=
  (point.1 + roundHalfEven (dist * uv.1), point.2 + roundHalfEven (dist * uv.2))

/-- One probe of `search_rays` (source lines 288–298): the source first
asserts `not np.all(new_p == point)` (an AssertionError if the rounded
offset is zero), then skips out-of-bounds probes, then evaluates the score
through the inform path of `get_score` and keeps the strictly best probe.
The TypeError branch is unreachable because `get_score` is only consulted
at in-bounds probes. -/
def sr_step {A : Type} (oob : Pt → Bool) (sp : Pt → ℚ × A) (point : Pt) (uv : ℚ × ℚ)
    (pr : ℕ × ℚ) (acc : SRAcc A) : Except String (SRAcc A) :=
  let new_p := probe_point point uv pr.2
  if new_p = point then .error "AssertionError"
  else if oob new_p then .ok acc
  else
    match get_score oob sp acc.st new_p true with
    | (.informed nv ninfo _, st2, _) =>
        if nv > acc.best_v then .ok ⟨nv, new_p, (pr.1 : ℤ), ninfo, st2⟩
        else .ok { acc with st := st2 }
    | (.scalar _, _, _) => .error "TypeError"

/-- Inner loop over `enumerate(dists)` for one angle. -/
def sr_dists {A : Type} (oob : Pt → Bool) (sp : Pt → ℚ × A) (point : Pt) (uv : ℚ × ℚ) :
    List (ℕ × ℚ) → SRAcc A → Except String (SRAcc A)
  | [], acc => .ok acc
  | d :: ds, acc =>
    match sr_step oob sp point uv d acc with
    | .error e => .error e
    | .ok acc2 => sr_dists oob sp point uv ds acc2

/-- Outer loop over the angles. -/
def sr_angles {A : Type} (oob : Pt → Bool) (sp : Pt → ℚ × A) (point : Pt)
    (dists : List (ℕ × ℚ)) : List (ℚ × ℚ) → SRAcc A → Except String (SRAcc A)
  | [], acc => .ok acc
  | uv :: uvs, acc =>
    match sr_dists oob sp point uv dists acc with
    | .error e => .error e
    | .ok acc2 => sr_angles oob sp point dists uvs acc2

/-- Embedding of `DonutCorners.search_rays`: runs the probe loops from
`(info[0], point, -1, info)` and classifies the outcome; note that the
boundary test compares the best **distance** index with `len(angles) - 1`. -/
def search_rays {A : Type} (oob : Pt → Bool) (sp : Pt → ℚ × A) (point : Pt)
    (angles : List (ℚ × ℚ)) (dists : List ℚ) (info : ℚ × A) (st : ScoreState A) :
    Except String ((ℤ × Pt × (ℚ × A)) × ScoreState A) :=
  match sr_angles oob sp point dists.enum angles ⟨info.1, point, -1, info, st⟩ with
  | .error e => .error e
  | .ok acc =>
      let mode : ℤ :=
        if acc.best_i = -1 then -1
        else if acc.best_i = 0 ∨ acc.best_i = (angles.length : ℤ) - 1 then 0
        else 1
      .ok ((mode, acc.best_p, acc.best_info), acc.st)

/-- Result projection dropping the cache state. -/
def ok_result {A : Type} (e : Except String ((ℤ × Pt × (ℚ × A)) × ScoreState A)) :
    Option (ℤ × Pt × (ℚ × A)) :=
  match e with
  | .ok x => some x.1
  | .error _ => none

/-- Success test for an `Except` value. -/
def except_ok {ε α : Type} : Except ε α → Bool
  | .ok _ => true
  | .error _ => false

/-- Error-message projection of an `Except` value. -/
def err_msg {α : Type} : Except String α → Option String
  | .ok _ => none
  | .error e => some e

/-- Final `point_info` cache entry at `q` of a successful `search_rays`. -/
def final_info {A : Type} (e : Except String ((ℤ × Pt × (ℚ × A)) × ScoreState A))
    (q : Pt) : Option (Option (ℚ × A)) :=
  match e with
  | .ok x => some (x.2.point_info q)
  | .error _ => none

theorem get_score_informed {A : Type} (oob : Pt → Bool) (sp : Pt → ℚ × A)
    (st : ScoreState A) (p : Pt) (h : oob p = false) :
    ∃ nv ninfo ex st2 comp,
      get_score oob sp st p true = (.informed nv ninfo ex, st2, comp) := by
  cases hi : st.point_info p with
  | some info => exact ⟨info.1, info, true, st, false, by simp [get_score, h, hi]⟩
  | none =>
    exact ⟨(sp p).1, sp p, false,
      { st with
        point_info := fun q => if q = p then some (sp p) else st.point_info q,
        scoredPart := fun q => if q = p then some (sp p).1 else st.scoredPart q },
      true, by simp [get_score, h, hi]⟩

theorem get_score_point_info_preserve {A : Type} (oob : Pt → Bool) (sp : Pt → ℚ × A)
    (st : ScoreState A) (p : Pt) (i : Bool) (q : Pt) (hq : q ≠ p) :
    ((get_score oob sp st p i).2.1).point_info q = st.point_info q := by
  cases hb : oob p with
  | true => simp [get_score, hb]
  | false =>
    cases i with
    | true =>
      cases hi : st.point_info p with
      | some info => simp [get_score, hb, hi]
      | none => simp [get_score, hb, hi, hq]
    | false =>
      cases hs : st.scored with
      | some sc => simp [get_score, hb, hs]
      | none =>
        cases hp : st.scoredPart p with
        | some v => simp [get_score, hb, hs, hp]
        | none => simp [get_score, hb, hs, hp]

theorem sr_step_props {A : Type} (oob : Pt → Bool) (sp : Pt → ℚ × A) (point : Pt)
    (uv : ℚ × ℚ) (pr : ℕ × ℚ) (acc acc2 : SRAcc A)
    (h : sr_step oob sp point uv pr acc = .ok acc2) :
    ((acc.best_i = -1 ↔ acc.best_p = point) → (acc2.best_i = -1 ↔ acc2.best_p = point)) ∧
      (∀ q, oob q = true → acc2.st.point_info q = acc.st.point_info q) := by
  unfold sr_step at h
  by_cases h1 : probe_point point uv pr.2 = point
  · rw [if_pos h1] at h; cases h
  · rw [if_neg h1] at h
    by_cases hb : oob (probe_point point uv pr.2) = true
    · rw [if_pos hb] at h
      cases h
      exact ⟨fun hi => hi, fun q _ => rfl⟩
    · rw [if_neg hb] at h
      have hb2 : oob (probe_point point uv pr.2) = false := by
        revert hb; cases oob (probe_point point uv pr.2) <;> simp
      obtain ⟨nv, ninfo, ex, st2, comp, hg⟩ :=
        get_score_informed oob sp acc.st (probe_point point uv pr.2) hb2
      rw [hg] at h
      dsimp only at h
      have hpres : ∀ q, oob q = true → st2.point_info q = acc.st.point_info q := by
        intro q hq
        have hqp : q ≠ probe_point point uv pr.2 := by
          intro he; rw [he] at hq; rw [hq] at hb2; cases hb2
        have := get_score_point_info_preserve oob sp acc.st
          (probe_point point uv pr.2) true q hqp
        rw [hg] at this
        exact this
      by_cases hv : nv > acc.best_v
      · rw [if_pos hv] at h
        cases h
        refine ⟨fun _ => ?_, hpres⟩
        constructor
        · intro hi
          dsimp only at hi
          have hge : (0 : ℤ) ≤ (pr.1 : ℤ) := Int.natCast_nonneg _
          omega
        · intro hp; exact absurd hp h1
      · rw [if_neg hv] at h
        cases h
        exact ⟨fun hi => hi, hpres⟩

theorem sr_dists_props {A : Type} (oob : Pt → Bool) (sp : Pt → ℚ × A) (point : Pt)
    (uv : ℚ × ℚ) (ds : List (ℕ × ℚ)) (acc acc2 : SRAcc A)
    (h : sr_dists oob sp point uv ds acc = .ok acc2) :
    ((acc.best_i = -1 ↔ acc.best_p = point) → (acc2.best_i = -1 ↔ acc2.best_p = point)) ∧
      (∀ q, oob q = true → acc2.st.point_info q = acc.st.point_info q) := by
  induction ds generalizing acc with
  | nil =>
    unfold sr_dists at h
    cases h
    exact ⟨fun hi => hi, fun q _ => rfl⟩
  | cons d ds ih =>
    unfold sr_dists at h
    cases hstep : sr_step oob sp point uv d acc with
    | error e => rw [hstep] at h; cases h
    | ok acc1 =>
      rw [hstep] at h
      have h1 := sr_step_props oob sp point uv d acc acc1 hstep
      have h2 := ih acc1 h
      exact ⟨fun hi => h2.1 (h1.1 hi),
        fun q hq => (h2.2 q hq).trans (h1.2 q hq)⟩

theorem sr_angles_props {A : Type} (oob : Pt → Bool) (sp : Pt → ℚ × A) (point : Pt)
    (dists : List (ℕ × ℚ)) (uvs : List (ℚ × ℚ)) (acc acc2 : SRAcc A)
    (h : sr_angles oob sp point dists uvs acc = .ok acc2) :
    ((acc.best_i = -1 ↔ acc.best_p = point) → (acc2.best_i = -1 ↔ acc2.best_p = point)) ∧
      (∀ q, oob q = true → acc2.st.point_info q = acc.st.point_info q) := by
  induction uvs generalizing acc with
  | nil =>
    unfold sr_angles at h
    cases h
    exact ⟨fun hi => hi, fun q _ => rfl⟩
  | cons uv uvs ih =>
    unfold sr_angles at h
    cases hd : sr_dists oob sp point uv dists acc with
    | error e => rw [hd] at h; cases h
    | ok acc1 =>
      rw [hd] at h
      have h1 := sr_dists_props oob sp point uv dists acc acc1 hd
      have h2 := ih acc1 h
      exact ⟨fun hi => h2.1 (h1.1 hi),
        fun q hq => (h2.2 q hq).trans (h1.2 q hq)⟩

theorem sr_step_ok_iff {A : Type} (oob : Pt → Bool) (sp : Pt → ℚ × A) (point : Pt)
    (uv : ℚ × ℚ) (pr : ℕ × ℚ) (acc : SRAcc A) :
    (∃ acc2, sr_step oob sp point uv pr acc = .ok acc2) ↔
      probe_point point uv pr.2 ≠ point := by
  constructor
  · rintro ⟨acc2, h⟩ he
    unfold sr_step at h
    rw [if_pos he] at h
    cases h
  · intro hne
    by_cases hb : oob (probe_point point uv pr.2) = true
    · exact ⟨acc, by unfold sr_step; rw [if_neg hne, if_pos hb]⟩
    · have hb2 : oob (probe_point point uv pr.2) = false := by
        revert hb; cases oob (probe_point point uv pr.2) <;> simp
      obtain ⟨nv, ninfo, ex, st2, comp, hg⟩ :=
        get_score_informed oob sp acc.st (probe_point point uv pr.2) hb2
      by_cases hv : nv > acc.best_v
      · refine ⟨⟨nv, probe_point point uv pr.2, (pr.1 : ℤ), ninfo, st2⟩, ?_⟩
        unfold sr_step
        rw [if_neg hne, if_neg hb, hg]
        dsimp only
        rw [if_pos hv]
      · refine ⟨{ acc with st := st2 }, ?_⟩
        unfold sr_step
        rw [if_neg hne, if_neg hb, hg]
        dsimp only
        rw [if_neg hv]

theorem sr_dists_ok_iff {A : Type} (oob : Pt → Bool) (sp : Pt → ℚ × A) (point : Pt)
    (uv : ℚ × ℚ) (ds : List (ℕ × ℚ)) (acc : SRAcc A) :
    (∃ acc2, sr_dists oob sp point uv ds acc = .ok acc2) ↔
      ∀ d ∈ ds, probe_point point uv d.2 ≠ point := by
  induction ds generalizing acc with
  | nil => simp [sr_dists]
  | cons d ds ih =>
    constructor
    · rintro ⟨acc2, h⟩ e he
      unfold sr_dists at h
      cases hstep : sr_step oob sp point uv d acc with
      | error msg => rw [hstep] at h; cases h
      | ok acc1 =>
        rw [hstep] at h
        rcases List.mem_cons.mp he with rfl | he2
        · exact (sr_step_ok_iff oob sp point uv e acc).mp ⟨acc1, hstep⟩
        · exact (ih acc1).mp ⟨acc2, h⟩ e he2
    · intro hall
      have hstep := (sr_step_ok_iff oob sp point uv d acc).mpr
        (hall d (List.mem_cons_self _ _))
      obtain ⟨acc1, hstep⟩ := hstep
      obtain ⟨acc2, h2⟩ := (ih acc1).mpr fun e he => hall e (List.mem_cons_of_mem _ he)
      exact ⟨acc2, by unfold sr_dists; rw [hstep]; exact h2⟩

theorem sr_angles_ok_iff {A : Type} (oob : Pt → Bool) (sp : Pt → ℚ × A) (point : Pt)
    (dists : List (ℕ × ℚ)) (uvs : List (ℚ × ℚ)) (acc : SRAcc A) :
    (∃ acc2, sr_angles oob sp point dists uvs acc = .ok acc2) ↔
      ∀ uv ∈ uvs, ∀ d ∈ dists, probe_point point uv d.2 ≠ point := by
  induction uvs generalizing acc with
  | nil => simp [sr_angles]
  | cons uv uvs ih =>
    constructor
    · rintro ⟨acc2, h⟩ v hv d hd
      unfold sr_angles at h
      cases hds : sr_dists oob sp point uv dists acc with
      | error msg => rw [hds] at h; cases h
      | ok acc1 =>
        rw [hds] at h
        rcases List.mem_cons.mp hv with rfl | hv2
        · exact (sr_dists_ok_iff oob sp point v dists acc).mp ⟨acc1, hds⟩ d hd
        · exact (ih acc1).mp ⟨acc2, h⟩ v hv2 d hd
    · intro hall
      obtain ⟨acc1, hds⟩ := (sr_dists_ok_iff oob sp point uv dists acc).mpr
        (hall uv (List.mem_cons_self _ _))
      obtain ⟨acc2, h2⟩ := (ih acc1).mpr fun v hv d hd =>
        hall v (List.mem_cons_of_mem _ hv) d hd
      exact ⟨acc2, by unfold sr_angles; rw [hds]; exact h2⟩

/-- Out-of-bounds test for a 10×10 image (correct two-coordinate form). -/
def c56oob : Pt → Bool := fun p =>
  !(decide (0 ≤ p.1) && decide (p.1 < 10) && decide (0 ≤ p.2) && decide (p.2 < 10))

/-- A deterministic underlying scorer: score 100 at `(0, 6)`, 1 elsewhere. -/
def c56sp : Pt → ℚ × Unit := fun p => (if p = ((0 : ℤ), (6 : ℤ)) then 100 else 1, ())

/-- An empty cache state. -/
def c56st : ScoreState Unit := ⟨none, fun _ => none, fun _ => none⟩

/-- C5 counterexample: one angle `(sin, cos) = (0, 1)` and distances
`1..6` from `(0,0)`; the best (only) improving probe is `(0, 6)`, produced
by the **last** enumerated (angle, distance) pair — a boundary index of the
probe enumeration — yet the returned mode signal is `1`, not `0`: the code
compares the best distance index (5) with `len(angles) - 1 = 0`. -/
theorem c5_counterexample :
    ok_result (search_rays c56oob c56sp (0, 0) [(0, 1)] [1, 2, 3, 4, 5, 6] (1, ()) c56st)
        = some (1, (0, 6), (100, ())) ∧
      probe_point (0, 0) (0, 1) 6 = (0, 6) ∧ ((1 : ℤ) ≠ 0) := by
  decide

/-- C5 amended: on every successful `search_rays` run the returned mode is
`-1` exactly when no probe strictly improved on the original point (the best
point is still `point`); otherwise it is `0` exactly when the final best
**distance** index is `0` or equals `len(angles) - 1` (not the boundary of
the whole (angle, distance) enumeration), and `1` in every other case. -/
theorem c5_mode_signal {A : Type} (oob : Pt → Bool) (sp : Pt → ℚ × A) (point : Pt)
    (angles : List (ℚ × ℚ)) (dists : List ℚ) (info : ℚ × A) (st : ScoreState A)
    (res : ℤ × Pt × (ℚ × A))
    (h : ok_result (search_rays oob sp point angles dists info st) = some res) :
    ∃ acc, sr_angles oob sp point dists.enum angles ⟨info.1, point, -1, info, st⟩ = .ok acc ∧
      res.1 = (if acc.best_i = -1 then -1
        else if acc.best_i = 0 ∨ acc.best_i = (angles.length : ℤ) - 1 then 0 else 1) ∧
      res.2.1 = acc.best_p ∧ (res.1 = -1 ↔ res.2.1 = point) := by
  unfold search_rays ok_result at h
  cases hsa : sr_angles oob sp point dists.enum angles ⟨info.1, point, -1, info, st⟩ with
  | error e => rw [hsa] at h; cases h
  | ok acc =>
    rw [hsa] at h
    dsimp only at h
    obtain rfl := Option.some.inj h
    refine ⟨acc, rfl, rfl, rfl, ?_⟩
    have hinv := (sr_angles_props oob sp point dists.enum angles _ acc hsa).1 (by simp)
    dsimp only
    by_cases hb : acc.best_i = -1
    · simp [hb, hinv.mp hb]
    · have hbp : acc.best_p ≠ point := fun hp => hb (hinv.mpr hp)
      rw [if_neg hb]
      by_cases h0 : acc.best_i = 0 ∨ acc.best_i = (angles.length : ℤ) - 1
      · rw [if_pos h0]
        constructor
        · intro h01; exact absurd h01 (by decide)
        · intro hp; exact absurd hp hbp
      · rw [if_neg h0]
        constructor
        · intro h11; exact absurd h11 (by decide)
        · intro hp; exact absurd hp hbp

/-- C5 amended witness: with one angle and the single distance 6 the best
probe has distance index 0, so the mode signal is 0. -/
theorem c5_mode_signal_witness :
    ∃ acc, sr_angles c56oob c56sp (0, 0) ([(6 : ℚ)].enum) [((0 : ℚ), (1 : ℚ))]
        ⟨((1 : ℚ), ()).1, (0, 0), -1, ((1 : ℚ), ()), c56st⟩ = .ok acc ∧
      ((0 : ℤ), ((0 : ℤ), (6 : ℤ)), ((100 : ℚ), ())).1 = (if acc.best_i = -1 then -1
        else if acc.best_i = 0 ∨ acc.best_i = (([((0 : ℚ), (1 : ℚ))].length : ℤ)) - 1
          then 0 else 1) ∧
      ((0 : ℤ), ((0 : ℤ), (6 : ℤ)), ((100 : ℚ), ())).2.1 = acc.best_p ∧
      (((0 : ℤ), ((0 : ℤ), (6 : ℤ)), ((100 : ℚ), ())).1 = -1 ↔
        ((0 : ℤ), ((0 : ℤ), (6 : ℤ)), ((100 : ℚ), ())).2.1 = ((0 : ℤ), (0 : ℤ))) :=
  c5_mode_signal c56oob c56sp (0, 0) [((0 : ℚ), (1 : ℚ))] [(6 : ℚ)] ((1 : ℚ), ()) c56st
    ((0 : ℤ), ((0 : ℤ), (6 : ℤ)), ((100 : ℚ), ())) (by decide)

/-- C6 counterexample: an (angle, distance) combination whose rounded offset
is the origin — angle `(0, 1)`, distance `3/10`, offset `(0, 0)` — is not
skipped: `search_rays` fails with the source's AssertionError
(`assert not np.all(new_p == point)`). -/
theorem c6_counterexample :
    err_msg (search_rays c56oob c56sp (0, 0) [(0, 1)] [3 / 10] ((1 : ℚ), ()) c56st)
      = some "AssertionError" := by
  decide

/-- C6 amended: `search_rays` succeeds exactly when **no** probe offset
rounds to the origin (such a probe raises an AssertionError instead of being
skipped); out-of-bounds probes are skipped without error and are never
evaluated: on success the cache is unchanged at every out-of-bounds point.
Evaluated probes go through the inform path of `get_score`, which returns
the cache-hit flag. -/
theorem c6_probe_handling {A : Type} (oob : Pt → Bool) (sp : Pt → ℚ × A) (point : Pt)
    (angles : List (ℚ × ℚ)) (dists : List ℚ) (info : ℚ × A) (st : ScoreState A) :
    (except_ok (search_rays oob sp point angles dists info st) = true ↔
      ∀ uv ∈ angles, ∀ d ∈ dists, probe_point point uv d ≠ point) ∧
    (∀ q, oob q = true →
      except_ok (search_rays oob sp point angles dists info st) = true →
      final_info (search_rays oob sp point angles dists info st) q
        = some (st.point_info q)) := by
  have key := sr_angles_ok_iff oob sp point dists.enum angles ⟨info.1, point, -1, info, st⟩
  have henum : (∀ uv ∈ angles, ∀ d ∈ dists.enum, probe_point point uv d.2 ≠ point) ↔
      (∀ uv ∈ angles, ∀ d ∈ dists, probe_point point uv d ≠ point) := by
    constructor
    · intro hh uv hu d hd
      have hmem : d ∈ dists.enum.map Prod.snd := by rw [List.enum_map_snd]; exact hd
      rcases List.mem_map.mp hmem with ⟨pr, hpr, rfl⟩
      exact hh uv hu pr hpr
    · intro hh uv hu pr hpr
      have hmem : pr.2 ∈ dists.enum.map Prod.snd := List.mem_map_of_mem _ hpr
      rw [List.enum_map_snd] at hmem
      exact hh uv hu pr.2 hmem
  constructor
  · constructor
    · intro hok
      cases hsa : sr_angles oob sp point dists.enum angles ⟨info.1, point, -1, info, st⟩ with
      | error e =>
        unfold search_rays at hok
        rw [hsa] at hok
        simp [except_ok] at hok
      | ok acc => exact henum.mp (key.mp ⟨acc, hsa⟩)
    · intro hall
      obtain ⟨acc, hacc⟩ := key.mpr (henum.mpr hall)
      unfold search_rays
      rw [hacc]
      rfl
  · intro q hq hok
    cases hsa : sr_angles oob sp point dists.enum angles ⟨info.1, point, -1, info, st⟩ with
    | error e =>
      unfold search_rays at hok
      rw [hsa] at hok
      simp [except_ok] at hok
    | ok acc =>
      have hpres := (sr_angles_props oob sp point dists.enum angles _ acc hsa).2 q hq
      unfold search_rays final_info
      rw [hsa]
      dsimp only
      rw [hpres]

/-- C6 amended witness: the probe `(0, 1)` at distance 1 has nonzero offset,
so the run succeeds, and the cache entry at the out-of-bounds point
`(-1, -1)` is untouched. -/
theorem c6_probe_handling_witness :
    except_ok (search_rays c56oob c56sp (0, 0) [((0 : ℚ), (1 : ℚ))] [(1 : ℚ)]
        ((1 : ℚ), ()) c56st) = true ∧
      final_info (search_rays c56oob c56sp (0, 0) [((0 : ℚ), (1 : ℚ))] [(1 : ℚ)]
        ((1 : ℚ), ()) c56st) (-1, -1) = some none :=
  ⟨(c6_probe_handling c56oob c56sp (0, 0) [((0 : ℚ), (1 : ℚ))] [(1 : ℚ)]
      ((1 : ℚ), ()) c56st).1.mpr (by decide),
    (c6_probe_handling c56oob c56sp (0, 0) [((0 : ℚ), (1 : ℚ))] [(1 : ℚ)]
      ((1 : ℚ), ()) c56st).2 (-1, -1) (by decide) (by decide)⟩

/-! ## Claim C9: the `find_corners` loop (source lines 263–273)

The loop body is
`while np.min(basins[eo:-eo, eo:-eo]) == 0: find_corner(random zero pixel);`
`if stop_percent is not None and np.mean(basins != 0) > stop_percent: break;`
`if max_rounds is not None and i >= max_rounds: break; i += 1`.
The basin grid is a finite 2-D integer array; the combined effect of one
round (the random unclaimed-pixel choice plus the external basin-painting
maximizer invoked by `find_corner`) is abstracted as an oracle
`effect : round → grid → grid`.  The embedding assumes `1 ≤ eo` and
`2*eo < h, w` so that the Python interior slice is the nonempty block of
rows `eo..h-eo-1` and columns `eo..w-eo-1` (otherwise `np.min` of an empty
slice raises).  Fuel makes the possibly nonterminating `while` a total
function; the result counts the rounds performed. -/

structure Basins where
  h : ℕ
  w : ℕ
  vals : ℕ → ℕ → ℤ

/-- The `while` guard `np.min(basins[eo:-eo, eo:-eo]) == 0`: some interior
cell is still unclaimed. -/
def interior_has_zero (b : Basins) (eo : ℕ) : Bool :=
  (List.range (b.h - 2 * eo)).any fun dy =>
    (List.range (b.w - 2 * eo)).any fun dx => decide (b.vals (eo + dy) (eo + dx) = 0)

/-- Number of claimed (nonzero) cells of the whole grid. -/
def nonzero_count (b : Basins) : ℕ :=
  ((List.range b.h).map fun y =>
    (List.range b.w).countP fun x => decide (b.vals y x ≠ 0)).sum

/-- The claimed fraction `np.mean(basins != 0)` over all pixels. -/
def nonzero_frac (b : Basins) : ℚ :=
  (nonzero_count b : ℚ) / ((b.h * b.w : ℕ) : ℚ)

/-- The break test `stop_percent is not None and np.mean(basins != 0) > stop_percent`. -/
def stop_hit (stop_pct : Option ℚ) (b2 : Basins) : Bool :=
  match stop_pct with
  | some sp => decide (nonzero_frac b2 > sp)
  | none => false

/-- The break test `max_rounds is not None and i >= max_rounds`. -/
def budget_hit (max_rounds : Option ℕ) (i : ℕ) : Bool :=
  match max_rounds with
  | some m => decide (i ≥ m)
  | none => false

/-- Embedding of the `find_corners` loop; returns the number of rounds
performed (`none` only when the fuel runs out, a model artifact). -/
def find_corners_loop (effect : ℕ → Basins → Basins) (eo : ℕ) (stop_pct : Option ℚ)
    (max_rounds : Option ℕ) : Basins → ℕ → ℕ → Option ℕ
  | _, _, 0 => none
  | b, i, fuel + 1 =>
    if interior_has_zero b eo then
      let b2 := effect i b
      if stop_hit stop_pct b2 then some (i + 1)
      else if budget_hit max_rounds i then some (i + 1)
      else find_corners_loop effect eo stop_pct max_rounds b2 (i + 1) fuel
    else some i

theorem c9aux_bound (effect : ℕ → Basins → Basins) (eo : ℕ) (sp : Option ℚ) (m : ℕ) :
    ∀ fuel i b, i ≤ m → m + 2 - i ≤ fuel →
      ∃ k, find_corners_loop effect eo sp (some m) b i fuel = some k ∧ k ≤ m + 1 := by
  intro fuel
  induction fuel with
  | zero => intro i b hi hf; omega
  | succ fuel ih =>
    intro i b hi hf
    unfold find_corners_loop
    by_cases hz : interior_has_zero b eo = true
    · rw [if_pos hz]
      dsimp only
      by_cases hsp : stop_hit sp (effect i b) = true
      · rw [if_pos hsp]
        exact ⟨i + 1, rfl, by omega⟩
      · rw [if_neg hsp]
        by_cases hm : budget_hit (some m) i = true
        · rw [if_pos hm]
          exact ⟨i + 1, rfl, by omega⟩
        · rw [if_neg hm]
          have him : ¬(i ≥ m) := by
            intro hge
            exact hm (decide_eq_true hge)
          exact ih (i + 1) (effect i b) (by omega) (by omega)
    · rw [if_neg hz]
      exact ⟨i, rfl, by omega⟩

theorem c9aux_done (effect : ℕ → Basins → Basins) (eo : ℕ) (sp : Option ℚ)
    (mr : Option ℕ) (b : Basins) (i fuel : ℕ) (hz : interior_has_zero b eo = false)
    (hf : 0 < fuel) : find_corners_loop effect eo sp mr b i fuel = some i := by
  cases fuel with
  | zero => omega
  | succ fuel =>
    unfold find_corners_loop
    rw [if_neg (by rw [hz]; exact Bool.false_ne_true)]

theorem c9aux_stop (effect : ℕ → Basins → Basins) (eo : ℕ) (sp : ℚ) (mr : Option ℕ)
    (b : Basins) (i fuel : ℕ) (hz : interior_has_zero b eo = true)
    (hsp : nonzero_frac (effect i b) > sp) :
    find_corners_loop effect eo (some sp) mr b i (fuel + 1) = some (i + 1) := by
  unfold find_corners_loop
  rw [if_pos hz]
  dsimp only
  have hhit : stop_hit (some sp) (effect i b) = true := decide_eq_true hsp
  rw [if_pos hhit]

/-- C9 amended: with `max_rounds = m` set, the loop performs at most `m + 1`
rounds — not `m`: the budget check `i >= max_rounds` runs *after* the round,
with `i` counting from 0 — (first conjunct, with fuel at least `m + 2` so
the model's fuel never runs out first); it performs no further round as soon
as every interior pixel (outside the `edge_offset` border) is claimed
(second conjunct); and it stops at the end of the first round after which
the claimed fraction strictly exceeds `stop_percent` (third conjunct). -/
theorem c9_find_corners_termination :
    (∀ (effect : ℕ → Basins → Basins) (eo : ℕ) (sp : Option ℚ) (m : ℕ) (b : Basins)
        (fuel : ℕ), m + 2 ≤ fuel →
      ∃ k, find_corners_loop effect eo sp (some m) b 0 fuel = some k ∧ k ≤ m + 1) ∧
    (∀ (effect : ℕ → Basins → Basins) (eo : ℕ) (sp : Option ℚ) (mr : Option ℕ)
        (b : Basins) (i fuel : ℕ), interior_has_zero b eo = false → 0 < fuel →
      find_corners_loop effect eo sp mr b i fuel = some i) ∧
    (∀ (effect : ℕ → Basins → Basins) (eo : ℕ) (sp : ℚ) (mr : Option ℕ) (b : Basins)
        (i fuel : ℕ), interior_has_zero b eo = true → nonzero_frac (effect i b) > sp →
      find_corners_loop effect eo (some sp) mr b i (fuel + 1) = some (i + 1)) :=
  ⟨fun effect eo sp m b fuel hf =>
      c9aux_bound effect eo sp m fuel 0 b (Nat.zero_le m) (by omega),
    fun effect eo sp mr b i fuel hz hf => c9aux_done effect eo sp mr b i fuel hz hf,
    fun effect eo sp mr b i fuel hz hsp => c9aux_stop effect eo sp mr b i fuel hz hsp⟩

/-- A 3×3 grid whose only interior cell (edge offset 1) is unclaimed. -/
def c9basins : Basins := ⟨3, 3, fun y x => if y = 1 ∧ x = 1 then 0 else 1⟩

/-- A 3×3 grid with every cell claimed. -/
def c9full : Basins := ⟨3, 3, fun _ _ => 1⟩

/-- C9 counterexample: with `max_rounds = 0` and an unclaimed interior pixel,
the loop still performs one full round (the oracle here claims nothing), i.e.
strictly more than `max_rounds` rounds: the budget check happens only after
the round. -/
theorem c9_counterexample :
    find_corners_loop (fun _ b => b) 1 none (some 0) c9basins 0 5 = some 1 ∧ ¬(1 ≤ 0) := by
  decide

/-- C9 amended witness: the round bound at `m = 0`, immediate termination on
a fully claimed grid, and the stop-percent break at `stop_percent = 0`. -/
theorem c9_find_corners_termination_witness :
    (∃ k, find_corners_loop (fun _ b => b) 1 none (some 0) c9basins 0 2 = some k ∧
        k ≤ 0 + 1) ∧
      find_corners_loop (fun _ b => b) 1 none (some 5) c9full 0 3 = some 0 ∧
      find_corners_loop (fun _ b => b) 1 (some 0) none c9basins 0 (4 + 1) = some (0 + 1) :=
  ⟨c9_find_corners_termination.1 (fun _ b => b) 1 none 0 c9basins 2 (by omega),
    c9_find_corners_termination.2.1 (fun _ b => b) 1 none (some 5) c9full 0 3
      (by decide) (by omega),
    c9_find_corners_termination.2.2 (fun _ b => b) 1 0 none c9basins 0 4
      (by decide) (by decide)⟩

end DonutCorners
